import Mathlib

/-!
Verification development for the haproxytool repository.

The repository consists of two CLI modules, `src/haproxytool/haproxy.py` and
`src/haproxytool/frontend.py`, which dispatch parsed CLI arguments to an
external HAProxy-administration client library.  The definitions below are a
shallow embedding of those modules: effectful Python methods become pure Lean
functions returning explicit records of the socket calls they issue, the lines
they print, and the `sys.exit` message or propagated exception, if any.
Components of the underlying stats-socket client core that are not part of
this repository (parser, aggregation, instance construction, discovery) are
modelled from the specification and marked as such in their doc comments.
-/

namespace Haproxytool

/-- Python digit-string evaluation: consumes decimal digits, failing on any
non-digit character.  Helper for `pyParseInt`. -/
def digitsVal : List Char → Nat → Option Nat
  | [], acc => some acc
  | c :: rest, acc =>
      if c.isDigit then digitsVal rest (acc * 10 + (c.toNat - 48)) else none

/-- Model of the Python builtin `int(str)` as used by the `write` methods:
an optional sign followed by one or more decimal digits parses to an integer;
anything else raises `ValueError` (modelled as `none`). -/
def pyParseInt (s : String) : Option Int :=
  match s.toList with
  | [] => none
  | '-' :: rest =>
      if rest.isEmpty then none
      else (digitsVal rest 0).map (fun n => -(n : Int))
  | '+' :: rest =>
      if rest.isEmpty then none
      else (digitsVal rest 0).map (fun n => (n : Int))
  | cs => (digitsVal cs 0).map (fun n => (n : Int))

/-- The `OPTIONS` table of `haproxy.py` (lines 49-54): maps a writable option
name to the client-library method that sets it. -/
def OPTIONS : List (String × String) :=
  [("maxconn", "setmaxconn"),
   ("ratelimitconn", "setratelimitconn"),
   ("ratelimitsess", "setratelimitsess"),
   ("ratelimitsslsess", "setratelimitsslsess")]

/-- Result of a write operation: the mutating calls dispatched towards the
sockets (method-or-frontend name paired with the integer argument), the lines
printed, and the `sys.exit` message when the operation aborted. -/
structure WriteResult where
  calls : List (String × Int)
  output : List String
  exitMsg : Option String
deriving DecidableEq

/-- Embedding of `HAProxyCommand.write` (haproxy.py lines 96-109): the option
name is checked against `OPTIONS`, then the value is converted with `int`;
on success the mapped method is invoked on the instance with the value. -/
def haproxyCommandWrite (option value : String) : WriteResult :=
  match OPTIONS.lookup option with
  | none => ⟨[], [], some (option ++ " is not a valid option")⟩
  | some m =>
      match pyParseInt value with
      | none => ⟨[], [], some ("invalid input " ++ value ++ ", excepted number")⟩
      | some v => ⟨[(m, v)], ["set " ++ option ++ " to " ++ toString v], none⟩

/-- Outcome of invoking a mutating method on one frontend handle:
success, a `CommandFailed` exception, or any other exception (which the CLI
code does not catch). -/
inductive Outcome where
  | ok
  | commandFailed (msg : String)
  | otherError (msg : String)
deriving DecidableEq

/-- A frontend handle as the CLI sees it: its name and the behaviour of the
mutating methods the CLI may invoke on it. -/
structure Frontend where
  name : String
  enableOutcome : Outcome
  disableOutcome : Outcome
  shutdownOutcome : Outcome
  setmaxconnOk : Bool
deriving DecidableEq

/-- Embedding of `FrontendCommand.write` (frontend.py lines 124-139): the
value is converted with `int`; on success `setmaxconn` is invoked on every
frontend in the list (with `die=False`, so failures print a message).  The
`OPTION` argument is read but never validated. -/
def frontendCommandWrite (option value : String) (frontends : List Frontend) :
    WriteResult :=
  match pyParseInt value with
  | none => ⟨[], [], some ("You need to pass a number, got " ++ value)⟩
  | some v =>
      ⟨frontends.map (fun f => (f.name, v)),
       frontends.map (fun f =>
         if f.setmaxconnOk then
           f.name ++ " set " ++ option ++ " to " ++ toString v
         else
           f.name ++ " failed to set maxconn on " ++ toString v),
       none⟩

/-- Result of a metric read operation: the entities queried for the metric
value, the lines printed, and the `sys.exit` message when the operation
aborted. -/
structure MetricResult where
  queries : List String
  output : List String
  exitMsg : Option String
deriving DecidableEq

/-- Embedding of `FrontendCommand.metric` (frontend.py lines 141-147): the
metric name is checked against `FRONTEND_METRICS` (a fixed enumerated set
supplied by the client library, here a parameter); only on success is each
frontend queried for the value. -/
def frontendCommandMetric (frontendMetrics : List String) (metric : String)
    (frontends : List Frontend) (value : Frontend → String → Int) :
    MetricResult :=
  if metric ∉ frontendMetrics then ⟨[], [], some (metric ++ " no valid metric")⟩
  else
    ⟨frontends.map Frontend.name,
     frontends.map (fun f => f.name ++ " " ++ toString (value f metric)),
     none⟩

/-- Embedding of `HAProxyCommand.metric` (haproxy.py lines 111-116): the
metric name is checked against `HAPROXY_METRICS` (a fixed enumerated set
supplied by the client library, here a parameter); only on success is the
instance queried for the value. -/
def haproxyCommandMetric (haproxyMetrics : List String) (metric : String)
    (value : String → Int) : MetricResult :=
  if metric ∉ haproxyMetrics then ⟨[], [], some (metric ++ " no valid metric")⟩
  else ⟨[metric], [metric ++ " = " ++ toString (value metric)], none⟩

/-- Result of building the frontend list: the handles collected and the lines
printed along the way. -/
structure BuildResult where
  frontends : List Frontend
  output : List String
deriving DecidableEq

/-- The named branch of `build_frontend_list`: each name is resolved through
`hap.frontend(name)` (modelled by `lookup`, with `none` for the `ValueError`
raised when the name is unknown); an unresolved name prints a message and is
skipped, and the loop continues. -/
def buildNamed (lookup : String → Option Frontend) : List String → BuildResult
  | [] => ⟨[], []⟩
  | n :: rest =>
      let r := buildNamed lookup rest
      match lookup n with
      | some f => ⟨f :: r.frontends, r.output⟩
      | none => ⟨r.frontends, (n ++ " was not found") :: r.output⟩

/-- Embedding of `FrontendCommand.build_frontend_list` (frontend.py lines
59-71): with no names, every discovered frontend is collected; with names,
each is resolved individually via `buildNamed`. -/
def build_frontend_list (lookup : String → Option Frontend)
    (allFrontends : List Frontend) (names : List String) : BuildResult :=
  if names.isEmpty then ⟨allFrontends, []⟩ else buildNamed lookup names

/-- Result of an enable/disable/shutdown loop: the lines printed, and the
message of the first uncaught exception when one aborted the loop. -/
structure OpResult where
  output : List String
  raised : Option String
deriving DecidableEq

/-- The shared loop shape of `FrontendCommand.enable`, `disable` and
`shutdown` (frontend.py lines 97-122): each frontend is processed in turn;
success and `CommandFailed` each print one line and the loop continues, while
any other exception propagates and aborts the loop. -/
def opLoop (outcomeOf : Frontend → Outcome) (okSuffix failSuffix : String) :
    List Frontend → OpResult
  | [] => ⟨[], none⟩
  | f :: rest =>
      match outcomeOf f with
      | .ok =>
          let r := opLoop outcomeOf okSuffix failSuffix rest
          ⟨(f.name ++ okSuffix) :: r.output, r.raised⟩
      | .commandFailed m =>
          let r := opLoop outcomeOf okSuffix failSuffix rest
          ⟨(f.name ++ failSuffix ++ m) :: r.output, r.raised⟩
      | .otherError m => ⟨[], some m⟩

/-- Embedding of `FrontendCommand.enable` (frontend.py lines 97-104). -/
def frontendCommandEnable : List Frontend → OpResult :=
  opLoop Frontend.enableOutcome " enabled" " failed to be enabled:"

/-- Embedding of `FrontendCommand.disable` (frontend.py lines 106-113). -/
def frontendCommandDisable : List Frontend → OpResult :=
  opLoop Frontend.disableOutcome " disabled" " failed to be disabled:"

/-- Embedding of `FrontendCommand.shutdown` (frontend.py lines 115-122). -/
def frontendCommandShutdown : List Frontend → OpResult :=
  opLoop Frontend.shutdownOutcome " shutdown" " failed to be shutdown:"

/-- A socket directory as seen by instance construction: either absent, or
present with the list of matching socket files it contains. -/
inductive SocketDir where
  | absent
  | present (socketFiles : List String)
deriving DecidableEq

/-- A constructed HAProxy instance handle, owning its discovered endpoints. -/
structure HAProxyInstance where
  endpoints : List String
deriving DecidableEq

/-- Modelled from the spec: the `haproxyadmin.haproxy.HAProxy` constructor
invoked by both `main` functions is not part of this repository.  Per the
spec, construction from a socket directory enumerates the matching socket
files and fails (a fatal configuration error caught by `main`, which exits)
when the directory is absent or contains zero matching sockets; otherwise the
instance owns the discovered endpoints. -/
def haproxyConstruct : SocketDir → Except String HAProxyInstance
  | .absent => .error "socket directory does not exist"
  | .present [] => .error "no socket files found in socket directory"
  | .present fs => .ok ⟨fs⟩

/-- Modelled from the spec: aggregation of a counter metric across the
per-endpoint values, which the client library computes for properties such as
`totalrequests` and `frontend.requests`; counters are combined by running
addition over the per-endpoint values. -/
def aggregateCounter (perEndpoint : List Nat) : Nat :=
  perEndpoint.foldl (fun acc v => acc + v) 0

/-- Modelled from the spec: the `totalrequests` aggregated metric of an
instance, combining the per-endpoint request counters reported by each
endpoint (given by `reqOf`). -/
def totalrequests (reqOf : String → Nat) (inst : HAProxyInstance) : Nat :=
  aggregateCounter (inst.endpoints.map reqOf)

/-- Splitting a character list at every occurrence of the delimiter `c`;
always returns at least one (possibly empty) field. -/
def splitOnChar (c : Char) : List Char → List (List Char)
  | [] => [[]]
  | x :: xs =>
      let rest := splitOnChar c xs
      if x = c then [] :: rest
      else
        match rest with
        | [] => [[x]]
        | f :: rs => (x :: f) :: rs

/-- Joining fields with a single delimiter character between consecutive
fields; the left inverse of `splitOnChar`. -/
def joinWith (c : Char) : List (List Char) → List Char
  | [] => []
  | [f] => f
  | f :: rest => f ++ c :: joinWith c rest

/-- A parsed stats row: the delimited fields of one record, in order. -/
structure StatRow where
  fields : List (List Char)
deriving DecidableEq

/-- Modelled from the spec: parsing one stats record; the comma-delimited
fields are extracted in order, and a wrong field count is a `ParseError`. -/
def parseRow (expected : Nat) (line : List Char) : Except String StatRow :=
  let fields := splitOnChar ',' line
  if fields.length = expected then .ok ⟨fields⟩
  else .error "ParseError: wrong field count"

/-- Modelled from the spec: serializing a parsed stats row back to its
delimited wire form. -/
def serializeRow (r : StatRow) : List Char := joinWith ',' r.fields

/-- Effectful map over a list in the `Except` monad, stopping at the first
error; written out recursively to keep induction direct. -/
def exceptMapList (f : α → Except ε β) : List α → Except ε (List β)
  | [] => .ok []
  | a :: as =>
      match f a with
      | .error e => .error e
      | .ok b =>
          match exceptMapList f as with
          | .error e => .error e
          | .ok bs => .ok (b :: bs)

/-- Modelled from the spec: `parseStats` splits the raw response into
newline-delimited records and parses each record into a row, surfacing a
`ParseError` on any malformed record. -/
def parseStats (expected : Nat) (raw : List Char) : Except String (List StatRow) :=
  exceptMapList (parseRow expected) (splitOnChar '\n' raw)

/-- Modelled from the spec: discovery issues one stats query per endpoint and
unions the entity names reported across all endpoints (`entitiesOn` gives the
names each endpoint reports). -/
def discoverNames (entitiesOn : String → List String) (endpoints : List String) :
    List String :=
  (endpoints.flatMap entitiesOn).dedup

/-- Ordering of per-endpoint results by endpoint path (ties broken by value),
under which the aggregation step sorts before combining. -/
def pairLe (p q : String × Nat) : Prop :=
  p.1 < q.1 ∨ (p.1 = q.1 ∧ p.2 ≤ q.2)

instance : DecidableRel pairLe := fun p q => by
  unfold pairLe; infer_instance

instance : IsTotal (String × Nat) pairLe where
  total p q := by
    rcases lt_trichotomy p.1 q.1 with h | h | h
    · exact Or.inl (Or.inl h)
    · rcases Nat.le_total p.2 q.2 with h2 | h2
      · exact Or.inl (Or.inr ⟨h, h2⟩)
      · exact Or.inr (Or.inr ⟨h.symm, h2⟩)
    · exact Or.inr (Or.inl h)

instance : IsTrans (String × Nat) pairLe where
  trans p q s hpq hqs := by
    rcases hpq with h1 | ⟨e1, l1⟩
    · rcases hqs with h2 | ⟨e2, _⟩
      · exact Or.inl (lt_trans h1 h2)
      · exact Or.inl (e2 ▸ h1)
    · rcases hqs with h2 | ⟨e2, l2⟩
      · exact Or.inl (e1 ▸ h2)
      · exact Or.inr ⟨e1.trans e2, le_trans l1 l2⟩

instance : IsAntisymm (String × Nat) pairLe where
  antisymm p q hpq hqp := by
    rcases hpq with h1 | ⟨e1, l1⟩
    · rcases hqp with h2 | ⟨e2, _⟩
      · exact absurd h2 (lt_asymm h1)
      · exact absurd h1 (e2 ▸ lt_irrefl q.1)
    · rcases hqp with h2 | ⟨_, l2⟩
      · exact absurd h2 (e1 ▸ lt_irrefl q.1)
      · exact Prod.ext e1 (le_antisymm l1 l2)

/-- Modelled from the spec: the aggregation step sorts the per-endpoint
results by endpoint path before combining them, so the report it produces is
independent of the order in which the per-endpoint results completed. -/
def aggregateReport (results : List (String × Nat)) : List String :=
  (List.insertionSort pairLe results).map (fun p => p.1 ++ " " ++ toString p.2)

/-! Theorems -/

/-- C1 counterexample: `write` with the value `-1` on the haproxy-global
entity passes the `int` conversion, does not abort, and dispatches a
`setmaxconn` call with `-1`, contradicting the claim that `-1` fails fast
with `ValidationError` and zero socket calls. -/
theorem negative_maxconn_is_dispatched :
    (haproxyCommandWrite "maxconn" "-1").exitMsg = none ∧
    (haproxyCommandWrite "maxconn" "-1").calls = [("setmaxconn", (-1 : Int))] := by
  constructor <;> rfl

/-- C1 (amended): for every write operation, a value argument that does not
parse as an integer aborts with an error message and zero socket calls; every
value that parses as an integer (of any sign, including `-1`) passes the
check and the command is dispatched — the haproxy-global write dispatches the
mapped method once, and the frontend write dispatches `setmaxconn` to every
frontend in the list. -/
theorem write_validates_integer_parse :
    (∀ option method value, OPTIONS.lookup option = some method →
      (pyParseInt value = none →
        (haproxyCommandWrite option value).exitMsg ≠ none ∧
        (haproxyCommandWrite option value).calls = []) ∧
      (∀ v, pyParseInt value = some v →
        (haproxyCommandWrite option value).exitMsg = none ∧
        (haproxyCommandWrite option value).calls = [(method, v)])) ∧
    (∀ option value frontends,
      (pyParseInt value = none →
        (frontendCommandWrite option value frontends).exitMsg ≠ none ∧
        (frontendCommandWrite option value frontends).calls = []) ∧
      (∀ v, pyParseInt value = some v →
        (frontendCommandWrite option value frontends).exitMsg = none ∧
        (frontendCommandWrite option value frontends).calls =
          frontends.map (fun f => (f.name, v)))) := by
  constructor
  · intro option method value hm
    exact ⟨fun hp => by simp [haproxyCommandWrite, hm, hp],
           fun v hp => by simp [haproxyCommandWrite, hm, hp]⟩
  · intro option value frontends
    exact ⟨fun hp => by simp [frontendCommandWrite, hp],
           fun v hp => by simp [frontendCommandWrite, hp]⟩

/-- Witness for C1 (amended) at concrete inputs. -/
theorem write_validates_integer_parse_witness :
    (haproxyCommandWrite "maxconn" "200").exitMsg = none ∧
    (haproxyCommandWrite "maxconn" "200").calls = [("setmaxconn", (200 : Int))] :=
  (write_validates_integer_parse.1 "maxconn" "setmaxconn" "200" (by rfl)).2 200 (by rfl)

/-- C2 counterexample: the frontend `write` never checks its `OPTION`
argument: with the unknown option name `notanoption` it still dispatches a
`setmaxconn` call to the frontend, contradicting the claim that every write
operation rejects unknown option names before dispatch. -/
theorem frontend_write_ignores_option_name :
    (frontendCommandWrite "notanoption" "5"
        [⟨"web", .ok, .ok, .ok, true⟩]).exitMsg = none ∧
    (frontendCommandWrite "notanoption" "5"
        [⟨"web", .ok, .ok, .ok, true⟩]).calls = [("web", (5 : Int))] := by
  constructor <;> rfl

/-- C2 (amended): the haproxy-global write rejects an option name outside the
`OPTIONS` table before any dispatch (zero calls); the frontend write performs
no such check — the calls it dispatches are independent of the option
argument. -/
theorem haproxy_write_rejects_unknown_option :
    (∀ option value, OPTIONS.lookup option = none →
      (haproxyCommandWrite option value).exitMsg ≠ none ∧
      (haproxyCommandWrite option value).calls = []) ∧
    (∀ option option2 value frontends,
      (frontendCommandWrite option value frontends).calls =
        (frontendCommandWrite option2 value frontends).calls) := by
  constructor
  · intro option value h
    simp [haproxyCommandWrite, h]
  · intro option option2 value frontends
    cases hp : pyParseInt value <;> simp [frontendCommandWrite, hp]

/-- Witness for C2 (amended) at a concrete input. -/
theorem haproxy_write_rejects_unknown_option_witness :
    (haproxyCommandWrite "notanoption" "5").exitMsg ≠ none ∧
    (haproxyCommandWrite "notanoption" "5").calls = [] :=
  haproxy_write_rejects_unknown_option.1 "notanoption" "5" (by rfl)

/-- C3: for both entity kinds present (frontend, haproxy-global), a metric
name outside the kind's enumerated metric set makes the metric operation
abort with a validation message and zero metric queries are issued. -/
theorem metric_validates_before_query
    (fm hm : List String) (metric : String) (frontends : List Frontend)
    (value : Frontend → String → Int) (hval : String → Int)
    (hf : metric ∉ fm) (hh : metric ∉ hm) :
    (frontendCommandMetric fm metric frontends value).queries = [] ∧
    (frontendCommandMetric fm metric frontends value).exitMsg ≠ none ∧
    (haproxyCommandMetric hm metric hval).queries = [] ∧
    (haproxyCommandMetric hm metric hval).exitMsg ≠ none := by
  simp [frontendCommandMetric, haproxyCommandMetric, hf, hh]

/-- Witness for C3 at concrete inputs. -/
theorem metric_validates_before_query_witness :
    (frontendCommandMetric ["req_rate"] "unknown_metric_xyz"
        [⟨"web", .ok, .ok, .ok, true⟩] (fun _ _ => 0)).queries = [] ∧
    (frontendCommandMetric ["req_rate"] "unknown_metric_xyz"
        [⟨"web", .ok, .ok, .ok, true⟩] (fun _ _ => 0)).exitMsg ≠ none ∧
    (haproxyCommandMetric ["CumReq"] "unknown_metric_xyz" (fun _ => 0)).queries = [] ∧
    (haproxyCommandMetric ["CumReq"] "unknown_metric_xyz" (fun _ => 0)).exitMsg ≠ none :=
  metric_validates_before_query ["req_rate"] ["CumReq"] "unknown_metric_xyz"
    [⟨"web", .ok, .ok, .ok, true⟩] (fun _ _ => 0) (fun _ => 0)
    (by decide) (by decide)

/-- Characterization of the named branch of list construction: the collected
handles are exactly the resolvable names in order, and one not-found line is
printed per unresolvable name. -/
theorem buildNamed_spec (lookup : String → Option Frontend) (names : List String) :
    (buildNamed lookup names).frontends = names.filterMap lookup ∧
    (buildNamed lookup names).output =
      (names.filter (fun n => (lookup n).isNone)).map (fun n => n ++ " was not found") := by
  induction names with
  | nil => simp [buildNamed]
  | cons n rest ih =>
      cases h : lookup n <;>
        simp [buildNamed, h, ih.1, ih.2, List.filterMap_cons, List.filter_cons]

/-- C4 counterexample: looking up the absent name `ghost` does not fail the
operation: `build_frontend_list` returns normally with `ghost` omitted and a
printed not-found line, and continues to resolve the remaining name `real`
— contradicting the claim that an absent name raises `NotFoundError`. -/
theorem absent_name_does_not_fail_lookup :
    (build_frontend_list
        (fun n => if n = "real" then some ⟨"real", .ok, .ok, .ok, true⟩ else none)
        [] ["ghost", "real"]).frontends = [⟨"real", .ok, .ok, .ok, true⟩] ∧
    (build_frontend_list
        (fun n => if n = "real" then some ⟨"real", .ok, .ok, .ok, true⟩ else none)
        [] ["ghost", "real"]).output = ["ghost was not found"] := by
  constructor <;> rfl

/-- C4 (amended): for every lookup of named entities, a name that resolves to
no frontend is reported with a printed not-found line and omitted from the
result, while the operation continues and returns the handles of all
resolvable names; no error is raised. -/
theorem absent_name_prints_and_continues (lookup : String → Option Frontend)
    (allFrontends : List Frontend) (names : List String) (h : names ≠ []) :
    (build_frontend_list lookup allFrontends names).frontends = names.filterMap lookup ∧
    (build_frontend_list lookup allFrontends names).output =
      (names.filter (fun n => (lookup n).isNone)).map (fun n => n ++ " was not found") := by
  have hne : names.isEmpty = false := by
    cases names with
    | nil => exact absurd rfl h
    | cons a as => rfl
  rw [build_frontend_list, hne]
  exact ⟨(buildNamed_spec lookup names).1, (buildNamed_spec lookup names).2⟩

/-- Witness for C4 (amended) at a concrete input. -/
theorem absent_name_prints_and_continues_witness :
    (build_frontend_list (fun _ => none) [] ["ghost"]).frontends =
      (["ghost"].filterMap (fun _ => (none : Option Frontend))) ∧
    (build_frontend_list (fun _ => none) [] ["ghost"]).output =
      ((["ghost"].filter (fun n => ((fun _ => (none : Option Frontend)) n).isNone)).map
        (fun n => n ++ " was not found")) :=
  absent_name_prints_and_continues (fun _ => none) [] ["ghost"] (by simp)

/-- Processing loop lemma: when no frontend raises an exception other than
`CommandFailed`, the loop runs to completion with nothing propagated and
prints exactly one outcome line per frontend, in order. -/
theorem opLoop_no_other (outcomeOf : Frontend → Outcome) (okS failS : String)
    (fs : List Frontend) (h : ∀ f ∈ fs, ∀ m, outcomeOf f ≠ .otherError m) :
    (opLoop outcomeOf okS failS fs).raised = none ∧
    (opLoop outcomeOf okS failS fs).output = fs.map (fun f =>
      match outcomeOf f with
      | .ok => f.name ++ okS
      | .commandFailed m => f.name ++ failS ++ m
      | .otherError _ => f.name) := by
  induction fs with
  | nil => simp [opLoop]
  | cons f rest ih =>
      have hf := h f (by simp)
      have hrest : ∀ g ∈ rest, ∀ m, outcomeOf g ≠ .otherError m :=
        fun g hg => h g (by simp [hg])
      cases ho : outcomeOf f with
      | ok => simp [opLoop, ho, (ih hrest).1, (ih hrest).2]
      | commandFailed m => simp [opLoop, ho, (ih hrest).1, (ih hrest).2]
      | otherError m => exact absurd ho (hf m)

/-- Processing loop lemma: the first exception other than `CommandFailed`
aborts the loop and propagates with its message unchanged. -/
theorem opLoop_propagates (outcomeOf : Frontend → Outcome) (okS failS : String)
    (pre : List Frontend) (f : Frontend) (post : List Frontend) (m : String)
    (hpre : ∀ g ∈ pre, ∀ k, outcomeOf g ≠ .otherError k)
    (hf : outcomeOf f = .otherError m) :
    (opLoop outcomeOf okS failS (pre ++ f :: post)).raised = some m := by
  induction pre with
  | nil => simp [opLoop, hf]
  | cons g gs ih =>
      have hg := hpre g (by simp)
      have hgs : ∀ g2 ∈ gs, ∀ k, outcomeOf g2 ≠ .otherError k :=
        fun g2 h2 => hpre g2 (by simp [h2])
      cases ho : outcomeOf g with
      | ok => simp [opLoop, ho, ih hgs]
      | commandFailed k => simp [opLoop, ho, ih hgs]
      | otherError k => exact absurd ho (hg k)

/-- C5 counterexample: a `CommandFailed` error during `enable` is converted
into a printed failure line and the operation continues with the next
frontend, nothing being propagated to the caller — contradicting the claim
that no error is ever downgraded to a printed warning while the operation
continues. -/
theorem command_failed_becomes_printed_warning :
    (frontendCommandEnable [⟨"a", .commandFailed "boom", .ok, .ok, true⟩,
                            ⟨"b", .ok, .ok, .ok, true⟩]).raised = none ∧
    (frontendCommandEnable [⟨"a", .commandFailed "boom", .ok, .ok, true⟩,
                            ⟨"b", .ok, .ok, .ok, true⟩]).output =
      ["a failed to be enabled:boom", "b enabled"] := by
  constructor <;> rfl

/-- C5 (amended): in the enable, disable and shutdown operations, every error
other than `CommandFailed` propagates to the caller with its message
unchanged, aborting the loop; only `CommandFailed` is caught, downgraded to a
printed line, and the loop continues with nothing propagated. -/
theorem only_command_failed_is_downgraded :
    (∀ fs, (∀ f ∈ fs, ∀ m, f.enableOutcome ≠ .otherError m) →
        (frontendCommandEnable fs).raised = none) ∧
    (∀ pre f post m, (∀ g ∈ pre, ∀ k, g.enableOutcome ≠ .otherError k) →
        f.enableOutcome = .otherError m →
        (frontendCommandEnable (pre ++ f :: post)).raised = some m) ∧
    (∀ fs, (∀ f ∈ fs, ∀ m, f.disableOutcome ≠ .otherError m) →
        (frontendCommandDisable fs).raised = none) ∧
    (∀ pre f post m, (∀ g ∈ pre, ∀ k, g.disableOutcome ≠ .otherError k) →
        f.disableOutcome = .otherError m →
        (frontendCommandDisable (pre ++ f :: post)).raised = some m) ∧
    (∀ fs, (∀ f ∈ fs, ∀ m, f.shutdownOutcome ≠ .otherError m) →
        (frontendCommandShutdown fs).raised = none) ∧
    (∀ pre f post m, (∀ g ∈ pre, ∀ k, g.shutdownOutcome ≠ .otherError k) →
        f.shutdownOutcome = .otherError m →
        (frontendCommandShutdown (pre ++ f :: post)).raised = some m) :=
  ⟨fun fs h => (opLoop_no_other Frontend.enableOutcome _ _ fs h).1,
   fun pre f post m hp hf => opLoop_propagates Frontend.enableOutcome _ _ pre f post m hp hf,
   fun fs h => (opLoop_no_other Frontend.disableOutcome _ _ fs h).1,
   fun pre f post m hp hf => opLoop_propagates Frontend.disableOutcome _ _ pre f post m hp hf,
   fun fs h => (opLoop_no_other Frontend.shutdownOutcome _ _ fs h).1,
   fun pre f post m hp hf => opLoop_propagates Frontend.shutdownOutcome _ _ pre f post m hp hf⟩

/-- Witness for C5 (amended) at a concrete input. -/
theorem only_command_failed_is_downgraded_witness :
    (frontendCommandEnable
        ([] ++ (⟨"a", .otherError "connection refused", .ok, .ok, true⟩ : Frontend) :: [])).raised =
      some "connection refused" :=
  only_command_failed_is_downgraded.2.1 []
    ⟨"a", .otherError "connection refused", .ok, .ok, true⟩ [] "connection refused"
    (by simp) rfl

/-- C10: in each of the enable, disable and shutdown operations, a
`CommandFailed` on one frontend does not abort the operation — every frontend
in the list is processed and gets one individually reported outcome line, in
order (provided no exception of another kind occurs); and during list
construction from explicit names, a name that resolves to no frontend is
skipped while every remaining named frontend is still looked up, the result
being exactly the resolvable names' handles in order. -/
theorem failures_do_not_abort_processing :
    (∀ fs, (∀ f ∈ fs, ∀ m, f.enableOutcome ≠ .otherError m) →
        (frontendCommandEnable fs).output = fs.map (fun f =>
          match f.enableOutcome with
          | .ok => f.name ++ " enabled"
          | .commandFailed m => f.name ++ " failed to be enabled:" ++ m
          | .otherError _ => f.name)) ∧
    (∀ fs, (∀ f ∈ fs, ∀ m, f.disableOutcome ≠ .otherError m) →
        (frontendCommandDisable fs).output = fs.map (fun f =>
          match f.disableOutcome with
          | .ok => f.name ++ " disabled"
          | .commandFailed m => f.name ++ " failed to be disabled:" ++ m
          | .otherError _ => f.name)) ∧
    (∀ fs, (∀ f ∈ fs, ∀ m, f.shutdownOutcome ≠ .otherError m) →
        (frontendCommandShutdown fs).output = fs.map (fun f =>
          match f.shutdownOutcome with
          | .ok => f.name ++ " shutdown"
          | .commandFailed m => f.name ++ " failed to be shutdown:" ++ m
          | .otherError _ => f.name)) ∧
    (∀ lookup names, (buildNamed lookup names).frontends = names.filterMap lookup) :=
  ⟨fun fs h => (opLoop_no_other Frontend.enableOutcome _ _ fs h).2,
   fun fs h => (opLoop_no_other Frontend.disableOutcome _ _ fs h).2,
   fun fs h => (opLoop_no_other Frontend.shutdownOutcome _ _ fs h).2,
   fun lookup names => (buildNamed_spec lookup names).1⟩

/-- Witness for C10 at a concrete input with a failing frontend mid-list. -/
theorem failures_do_not_abort_processing_witness :
    (frontendCommandEnable [⟨"a", .commandFailed "x", .ok, .ok, true⟩,
                            ⟨"b", .ok, .ok, .ok, true⟩]).output =
      [(⟨"a", .commandFailed "x", .ok, .ok, true⟩ : Frontend),
       ⟨"b", .ok, .ok, .ok, true⟩].map (fun f =>
        match f.enableOutcome with
        | .ok => f.name ++ " enabled"
        | .commandFailed m => f.name ++ " failed to be enabled:" ++ m
        | .otherError _ => f.name) :=
  failures_do_not_abort_processing.1
    [⟨"a", .commandFailed "x", .ok, .ok, true⟩, ⟨"b", .ok, .ok, .ok, true⟩]
    (by simp)

/-- C6: constructing the instance handle fails when the socket directory is
absent or contains zero matching socket files, and every successfully
constructed instance owns exactly the discovered socket files, of which
there is at least one. -/
theorem construction_requires_endpoints :
    (∃ e, haproxyConstruct .absent = .error e) ∧
    (∃ e, haproxyConstruct (.present []) = .error e) ∧
    (∀ d inst, haproxyConstruct d = .ok inst →
        inst.endpoints ≠ [] ∧ d = .present inst.endpoints) := by
  refine ⟨⟨_, rfl⟩, ⟨_, rfl⟩, ?_⟩
  intro d inst h
  cases d with
  | absent => exact absurd h (by simp [haproxyConstruct])
  | present fs =>
      cases fs with
      | nil => exact absurd h (by simp [haproxyConstruct])
      | cons a as =>
          have : (⟨a :: as⟩ : HAProxyInstance) = inst := by
            simpa [haproxyConstruct] using h
          subst this
          exact ⟨by simp, rfl⟩

/-- Witness for C6 at a concrete input. -/
theorem construction_requires_endpoints_witness :
    (⟨["sock1"]⟩ : HAProxyInstance).endpoints ≠ [] ∧
    SocketDir.present ["sock1"] =
      .present (⟨["sock1"]⟩ : HAProxyInstance).endpoints :=
  construction_requires_endpoints.2.2 (.present ["sock1"]) ⟨["sock1"]⟩ rfl

/-- C7: aggregating a counter metric across any list of per-endpoint
non-negative integer values equals the arithmetic sum of those values; in
particular the total-requests aggregate of an instance is the sum of the
per-endpoint request counters. -/
theorem counter_aggregation_is_sum (vals : List Nat) (reqOf : String → Nat)
    (inst : HAProxyInstance) :
    aggregateCounter vals = vals.sum ∧
    totalrequests reqOf inst = (inst.endpoints.map reqOf).sum := by
  constructor
  · rw [aggregateCounter, List.sum_eq_foldl]
  · rw [totalrequests, aggregateCounter, List.sum_eq_foldl]

/-- Splitting always yields at least one field. -/
theorem splitOnChar_ne_nil (c : Char) (l : List Char) : splitOnChar c l ≠ [] := by
  cases l with
  | nil => simp [splitOnChar]
  | cons x xs =>
      simp only [splitOnChar]
      split
      · simp
      · split <;> simp

/-- No field produced by splitting contains the delimiter. -/
theorem not_mem_splitOnChar (c : Char) (l : List Char) :
    ∀ f ∈ splitOnChar c l, c ∉ f := by
  induction l with
  | nil =>
      intro f hf
      simp [splitOnChar] at hf
      subst hf
      simp
  | cons x xs ih =>
      intro f hf
      simp only [splitOnChar] at hf
      by_cases h : x = c
      · rw [if_pos h] at hf
        rcases List.mem_cons.mp hf with rfl | hmem
        · simp
        · exact ih f hmem
      · rw [if_neg h] at hf
        cases hrest : splitOnChar c xs with
        | nil => exact absurd hrest (splitOnChar_ne_nil c xs)
        | cons f0 rs =>
            rw [hrest] at hf
            rcases List.mem_cons.mp hf with rfl | hmem
            · intro hc
              rcases List.mem_cons.mp hc with rfl | hc2
              · exact h rfl
              · exact ih f0 (by rw [hrest]; simp) hc2
            · exact ih f (by rw [hrest]; simp [hmem])

/-- A delimiter-free character list splits into the single field it is. -/
theorem splitOnChar_of_not_mem (c : Char) (f : List Char) (h : c ∉ f) :
    splitOnChar c f = [f] := by
  induction f with
  | nil => rfl
  | cons x xs ih =>
      have hx : ¬ x = c := fun e => h (by simp [e])
      have hxs : c ∉ xs := fun e => h (by simp [e])
      simp [splitOnChar, if_neg hx, ih hxs]

/-- Splitting a delimiter-free field followed by a delimiter peels off that
field. -/
theorem splitOnChar_append (c : Char) (f t : List Char) (h : c ∉ f) :
    splitOnChar c (f ++ c :: t) = f :: splitOnChar c t := by
  induction f with
  | nil => simp [splitOnChar]
  | cons x xs ih =>
      have hx : ¬ x = c := fun e => h (by simp [e])
      have hxs : c ∉ xs := fun e => h (by simp [e])
      have hne := splitOnChar_ne_nil c t
      simp [List.cons_append, splitOnChar, if_neg hx, ih hxs]

/-- Splitting is a left inverse of joining on delimiter-free fields. -/
theorem splitOnChar_joinWith (c : Char) (fields : List (List Char))
    (hne : fields ≠ []) (h : ∀ f ∈ fields, c ∉ f) :
    splitOnChar c (joinWith c fields) = fields := by
  induction fields with
  | nil => exact absurd rfl hne
  | cons f rest ih =>
      cases rest with
      | nil => exact splitOnChar_of_not_mem c f (h f (by simp))
      | cons g rs =>
          have hrest : ∀ x ∈ g :: rs, c ∉ x := fun x hx => h x (by simp [hx])
          have hf : c ∉ f := h f (by simp)
          have step : joinWith c (f :: g :: rs) = f ++ c :: joinWith c (g :: rs) := by
            simp [joinWith]
          rw [step, splitOnChar_append c f _ hf, ih (by simp) hrest]

/-- Inversion for a successful `exceptMapList`: every element was mapped
successfully, in order. -/
theorem exceptMapList_ok_forall₂ {α β ε : Type} (f : α → Except ε β) :
    ∀ (l : List α) (bs : List β), exceptMapList f l = .ok bs →
      List.Forall₂ (fun a b => f a = .ok b) l bs := by
  intro l
  induction l with
  | nil =>
      intro bs h
      simp only [exceptMapList, Except.ok.injEq] at h
      subst h
      exact List.Forall₂.nil
  | cons a as ih =>
      intro bs h
      simp only [exceptMapList] at h
      cases hfa : f a with
      | error e => rw [hfa] at h; exact absurd h (by simp)
      | ok b =>
          rw [hfa] at h
          cases hrec : exceptMapList f as with
          | error e => rw [hrec] at h; exact absurd h (by simp)
          | ok bs2 =>
              rw [hrec] at h
              have hb : b :: bs2 = bs := by simpa using h
              subst hb
              exact List.Forall₂.cons hfa (ih bs2 hrec)

/-- Inversion for a successful `parseRow`: the row holds exactly the split
fields of the line, and the field count matched. -/
theorem parseRow_ok (expected : Nat) (line : List Char) (r : StatRow)
    (h : parseRow expected line = .ok r) :
    r.fields = splitOnChar ',' line ∧ (splitOnChar ',' line).length = expected := by
  simp only [parseRow] at h
  split at h
  · next hlen =>
      have : StatRow.mk (splitOnChar ',' line) = r := by simpa using h
      subst this
      exact ⟨rfl, hlen⟩
  · exact absurd h (by simp)

/-- Re-serializing a row obtained from a successful parse and re-parsing it
gives back the same row. -/
theorem parseRow_serializeRow (expected : Nat) (line : List Char) (r : StatRow)
    (h : parseRow expected line = .ok r) :
    parseRow expected (serializeRow r) = .ok r := by
  obtain ⟨hf, hlen⟩ := parseRow_ok expected line r h
  have hne : splitOnChar ',' line ≠ [] := splitOnChar_ne_nil ',' line
  have hnc : ∀ f ∈ splitOnChar ',' line, ',' ∉ f := not_mem_splitOnChar ',' line
  have hsplit : splitOnChar ',' (joinWith ',' r.fields) = r.fields := by
    rw [hf]
    exact splitOnChar_joinWith ',' _ hne hnc
  have hlen2 : r.fields.length = expected := by rw [hf]; exact hlen
  cases r with
  | mk fields =>
      simp only [serializeRow] at hsplit ⊢
      simp only [parseRow, hsplit]
      rw [if_pos hlen2]

/-- Existence of a source element for every image element of a `Forall₂`. -/
theorem exists_of_forall₂ {α β : Type} {R : α → β → Prop} :
    ∀ {l1 : List α} {l2 : List β}, List.Forall₂ R l1 l2 → ∀ b ∈ l2, ∃ a, R a b := by
  intro l1 l2 h
  induction h with
  | nil => intro b hb; exact absurd hb (by simp)
  | cons hab _ ih =>
      intro b hb
      rcases List.mem_cons.mp hb with rfl | hb2
      · exact ⟨_, hab⟩
      · exact ih b hb2

/-- C8: for every stats response that parses successfully, `parseStats`
produces exactly one row per newline-delimited input record, each row holding
its record's comma-delimited fields in order, and re-serializing any parsed
row and re-parsing it yields the same row. -/
theorem parseStats_rows_and_roundtrip (expected : Nat) (raw : List Char)
    (rows : List StatRow) (h : parseStats expected raw = .ok rows) :
    rows.length = (splitOnChar '\n' raw).length ∧
    List.Forall₂ (fun line r => r.fields = splitOnChar ',' line)
      (splitOnChar '\n' raw) rows ∧
    ∀ r ∈ rows, parseRow expected (serializeRow r) = .ok r := by
  have hall := exceptMapList_ok_forall₂ (parseRow expected) (splitOnChar '\n' raw) rows h
  refine ⟨hall.length_eq.symm, ?_, ?_⟩
  · exact hall.imp (fun a b hab => (parseRow_ok expected a b hab).1)
  · intro r hr
    obtain ⟨line, hpr⟩ := exists_of_forall₂ hall r hr
    exact parseRow_serializeRow expected line r hpr

/-- Witness for C8 at a concrete two-record response. -/
theorem parseStats_rows_and_roundtrip_witness :
    ([⟨[['a'], ['b']]⟩, ⟨[['c'], ['d']]⟩] : List StatRow).length =
      (splitOnChar '\n' ['a', ',', 'b', '\n', 'c', ',', 'd']).length ∧
    List.Forall₂ (fun (line : List Char) (r : StatRow) => r.fields = splitOnChar ',' line)
      (splitOnChar '\n' ['a', ',', 'b', '\n', 'c', ',', 'd'])
      ([⟨[['a'], ['b']]⟩, ⟨[['c'], ['d']]⟩] : List StatRow) ∧
    ∀ r ∈ ([⟨[['a'], ['b']]⟩, ⟨[['c'], ['d']]⟩] : List StatRow),
      parseRow 2 (serializeRow r) = .ok r :=
  parseStats_rows_and_roundtrip 2 ['a', ',', 'b', '\n', 'c', ',', 'd']
    [⟨[['a'], ['b']]⟩, ⟨[['c'], ['d']]⟩] (by rfl)

/-- C9: discovery over an unchanged cluster state is order-independent — for
any two enumeration orders of the endpoints the discovered entity name lists
are equal as sets — and the aggregation step is deterministic: it sorts the
per-endpoint results by endpoint path before combining, so any two completion
orders of the same per-endpoint results produce identical aggregate output. -/
theorem discovery_and_aggregation_order_independent :
    (∀ (entitiesOn : String → List String) (e1 e2 : List String), e1.Perm e2 →
        (discoverNames entitiesOn e1).toFinset =
          (discoverNames entitiesOn e2).toFinset) ∧
    (∀ (r1 r2 : List (String × Nat)), r1.Perm r2 →
        aggregateReport r1 = aggregateReport r2) := by
  constructor
  · intro entitiesOn e1 e2 hperm
    ext n
    simp [discoverNames, List.mem_dedup, List.mem_flatMap, hperm.mem_iff]
  · intro r1 r2 hperm
    have hsorted : List.insertionSort pairLe r1 = List.insertionSort pairLe r2 :=
      List.eq_of_perm_of_sorted
        ((List.perm_insertionSort pairLe r1).trans
          (hperm.trans (List.perm_insertionSort pairLe r2).symm))
        (List.sorted_insertionSort pairLe r1)
        (List.sorted_insertionSort pairLe r2)
    simp [aggregateReport, hsorted]

/-- Witness for C9 at concrete permuted inputs. -/
theorem discovery_and_aggregation_order_independent_witness :
    (discoverNames (fun e => [e ++ "-fe"]) ["b", "a"]).toFinset =
      (discoverNames (fun e => [e ++ "-fe"]) ["a", "b"]).toFinset ∧
    aggregateReport [("b", 1), ("a", 2)] = aggregateReport [("a", 2), ("b", 1)] :=
  ⟨discovery_and_aggregation_order_independent.1 (fun e => [e ++ "-fe"])
      ["b", "a"] ["a", "b"] (by decide),
   discovery_and_aggregation_order_independent.2 [("b", 1), ("a", 2)]
      [("a", 2), ("b", 1)] (by decide)⟩

end Haproxytool
